import Mathlib

/-!
Shallow embedding of the opportunity-detection engine of the
Sportsbook-Analysis repository (src/main.py), for checking the
natural-language specification against the code.

Modelling conventions:
- Python floats (prices, lines, margins, hours) are modelled as exact
  rationals (ℚ).  Every concrete input value used below (4, 47.5, 1.91,
  ...) is exactly representable in binary floating point, and wherever a
  conclusion depends on an exact boundary (the threshold-equality
  counterexample for C2) the inputs are chosen so that every intermediate
  float operation is also exact (reciprocals of powers of two), so on these
  inputs the float code computes the same values as the rational model;
  elsewhere the comparisons involved are robust to float rounding.
- Timestamps are rationals measured in hours; `now` is passed explicitly.
  All timestamps are taken timezone-aware UTC (the naive-as-UTC
  coercion is the identity in this model).
- Nullable string columns that the code immediately coalesces with
  `or ""` (sportsbook, league, event, market, outcome) are modelled as
  plain strings, with "" standing for NULL.  `line` and `odds_decimal`
  and `commence_time` stay optional, as the code branches on them.
- Python dicts (insertion-ordered) are modelled as association lists that
  append new keys at the end and update existing keys in place.
- `str.lower()` is modelled for ASCII letters, and `float(...)` parsing for
  the sign/digits/fraction forms; exponent and inf/nan spellings of float
  literals do not occur in sportsbook lines and are not modelled.
- The C format "%g" used for spread line keys is modelled as printing the
  exact decimal with trailing zeros removed; this matches "%g" whenever the
  rounded value needs at most six significant digits, which covers every
  sports line (and every value in the claims).
-/

/-- Characters stripped by Python `str.strip()` (ASCII whitespace). -/
def pySpace (c : Char) : Bool :=
  c = ' ' || c = '\t' || c = '\n' || c = '\r' || c = Char.ofNat 11 || c = Char.ofNat 12

/-- Python `str.strip()` on a character list. -/
def trimChars (l : List Char) : List Char :=
  ((l.dropWhile pySpace).reverse.dropWhile pySpace).reverse

/-- Python `str.strip()` on a string. -/
def pyStrip (s : String) : String :=
  String.mk (trimChars s.toList)

/-- ASCII `str.lower()` on one character. -/
def lowerChar (c : Char) : Char :=
  if decide ('A' ≤ c) && decide (c ≤ 'Z') then Char.ofNat (c.toNat + 32) else c

/-- ASCII `str.lower()` on a string. -/
def lowerStr (s : String) : String :=
  String.mk (s.toList.map lowerChar)

/-- Does the second list start with the first one (`str.startswith`)? -/
def startsWithChars : List Char → List Char → Bool
  | [], _ => true
  | _ :: _, [] => false
  | p :: ps, c :: cs => if p = c then startsWithChars ps cs else false

/-- Numeric value of an ASCII digit character. -/
def digitVal (c : Char) : Nat := c.toNat - 48

/-- ASCII digit character for a value `< 10`. -/
def digitChar (d : Nat) : Char := Char.ofNat (48 + d)

/-- Value of a list of ASCII digits, most significant first. -/
def digitsToNat (l : List Char) : Nat :=
  l.foldl (fun a c => a * 10 + digitVal c) 0

/-- Unsigned decimal literal: `digits`, `digits.digits`, `digits.` or `.digits`. -/
def parseUnsigned (l : List Char) : Option ℚ :=
  let ip := l.takeWhile Char.isDigit
  let rest := l.drop ip.length
  match rest with
  | [] => if ip.isEmpty then none else some ((digitsToNat ip : ℚ))
  | c :: fr =>
    if c = '.' then
      if fr.all Char.isDigit && (!ip.isEmpty || !fr.isEmpty) then
        some ((digitsToNat ip : ℚ) + (digitsToNat fr : ℚ) / ((10 : ℚ) ^ fr.length))
      else none
    else none

/-- Python `float(s)` for the literal shapes that occur in sportsbook lines:
optional surrounding whitespace, optional sign, digits with an optional
fractional part.  Returns `none` where `float` raises `ValueError`. -/
def parseFloat (s : String) : Option ℚ :=
  match trimChars s.toList with
  | '+' :: r => parseUnsigned r
  | '-' :: r => (parseUnsigned r).map (fun q => -q)
  | r => parseUnsigned r

/-- Digits of a natural number (fuel-based helper). -/
def natToCharsAux : Nat → Nat → List Char
  | 0, _ => []
  | f + 1, n => if n < 10 then [digitChar n] else natToCharsAux f (n / 10) ++ [digitChar (n % 10)]

/-- Decimal digits of a natural number, most significant first. -/
def natToChars (n : Nat) : List Char := natToCharsAux (n + 1) n

/-- Round-half-to-even to an integer, as the Python builtin `round` does. -/
def roundHalfEven (q : ℚ) : ℤ :=
  let f := ⌊q⌋
  let r := q - (f : ℚ)
  if r < 1 / 2 then f
  else if 1 / 2 < r then f + 1
  else if f % 2 = 0 then f else f + 1

/-- Python `round(q, 3)`. -/
def roundTo3 (q : ℚ) : ℚ := ((roundHalfEven (q * 1000) : ℤ) : ℚ) / 1000

/-- Render `k` thousandths as a decimal numeral without trailing zeros:
the "%g" formatting of `round(v, 3)` for the magnitudes sports lines take. -/
def fmtThousandths (k : Nat) : String :=
  let ip := k / 1000
  let fp := k % 1000
  let d1 := fp / 100
  let d2 := fp / 10 % 10
  let d3 := fp % 10
  let frac : List Char :=
    if fp = 0 then []
    else if d3 ≠ 0 then ['.', digitChar d1, digitChar d2, digitChar d3]
    else if d2 ≠ 0 then ['.', digitChar d1, digitChar d2]
    else ['.', digitChar d1]
  String.mk (natToChars ip ++ frac)

/-- One stored odds row (`models.Odds`). -/
structure Odds where
  sportsbook : String
  league : String
  event : String
  market : String
  outcome : String
  line : Option String
  odds_decimal : Option ℚ
  commence_time : Option ℚ
deriving DecidableEq, Repr

/-- The price read `o.odds_decimal or 0.0`. -/
def priceD (o : Odds) : ℚ := o.odds_decimal.getD 0

/-- Model of `_coerce_line`: trim; empty or missing becomes `none`. -/
def coerceLine : Option String → Option String
  | none => none
  | some s => let t := pyStrip s; if t = "" then none else some t

/-- Model of `norm_abs_spread` inside `_group_by_event_market_line`: absolute numeric
value, rounded to 3 decimals, printed without trailing zeros; unparseable
lines fall back to `_coerce_line`. -/
def normAbsSpread : Option String → Option String
  | none => none
  | some s =>
    match parseFloat (pyStrip s) with
    | some v => some (fmtThousandths (roundHalfEven (|v| * 1000)).toNat)
    | none => coerceLine (some s)

/-- Grouping key `(event, market, line_key)` of `_group_by_event_market_line`:
spreads use the sign-collapsed numeric key, totals the trimmed exact string,
anything else (h2h) no line. -/
def groupKeyOf (o : Odds) : String × String × Option String :=
  let mkt := lowerStr o.market
  let lk :=
    if mkt = "spreads" then normAbsSpread o.line
    else if mkt = "totals" then coerceLine o.line
    else none
  (o.event, mkt, lk)

/-- Insert a value into an insertion-ordered association list of groups
(Python `defaultdict(list)` behaviour). -/
def insertAssoc {κ : Type} [DecidableEq κ] (k : κ) (v : Odds) :
    List (κ × List Odds) → List (κ × List Odds)
  | [] => [(k, [v])]
  | (k2, g) :: t =>
    if k2 = k then (k2, g ++ [v]) :: t else (k2, g) :: insertAssoc k v t

/-- Group rows by a key, preserving dict insertion order. -/
def groupByKey {κ : Type} [DecidableEq κ] (key : Odds → κ) (rows : List Odds) :
    List (κ × List Odds) :=
  rows.foldl (fun acc o => insertAssoc (key o) o acc) []

/-- Model of `_group_by_event_market_line`. -/
def groupByEML (rows : List Odds) : List ((String × String × Option String) × List Odds) :=
  groupByKey groupKeyOf rows

/-- Engine configuration (the already-parsed query parameters of
`get_arbitrage`; the comma-split sets arrive as optional lists, league and
market entries already lower-cased by the caller). -/
structure ArbCfg where
  leagues : Option (List String)
  markets : Option (List String)
  sportsbooks : Option (List String)
  min_margin : ℚ
  min_hours_ahead : ℚ
  show_middles : Bool
  middle_min_width : ℚ
  middle_min_price : ℚ
  sort_by : String
  sort_dir : String
deriving DecidableEq, Repr

/-- Python truthiness check `if leagues and ...`: `None` and the empty set
are both falsy, so they disable the filter. -/
def setActive : Option (List String) → Bool
  | none => false
  | some l => !l.isEmpty

/-- Membership test on the lower-cased value of the quote, used for leagues and
markets in `_apply_row_level_filters`. -/
def passesSetLower (filt : Option (List String)) (v : String) : Bool :=
  if setActive filt then decide (lowerStr v ∈ filt.getD []) else true

/-- Membership test on the raw value, used for sportsbooks in
`_apply_row_level_filters` (the code does not lower-case the sportsbook). -/
def passesSetRaw (filt : Option (List String)) (v : String) : Bool :=
  if setActive filt then decide (v ∈ filt.getD []) else true

/-- Per-row keep decision of `_apply_row_level_filters`. -/
def keepRow (cfg : ArbCfg) (now : ℚ) (o : Odds) : Bool :=
  match o.commence_time with
  | none => false
  | some ct =>
    if ct ≤ now + cfg.min_hours_ahead then false
    else
      passesSetLower cfg.leagues o.league &&
      passesSetLower cfg.markets o.market &&
      passesSetRaw cfg.sportsbooks o.sportsbook

/-- Model of `_apply_row_level_filters`. -/
def applyRowFilters (rows : List Odds) (cfg : ArbCfg) (now : ℚ) : List Odds :=
  rows.filter (keepRow cfg now)

/-- Spread side key of `_best_price_by_outcome`: `"plus"`/`"minus"` from the
sign of the own line of the quote, falling back to the outcome label when the line
(`str(o.line)`, which is `"None"` for a missing line) does not parse. -/
def spreadSideKey (o : Odds) : String :=
  match o.line with
  | none => o.outcome
  | some s =>
    match parseFloat s with
    | some ln => if 0 ≤ ln then "plus" else "minus"
    | none => o.outcome

/-- Update the best-price dict at a key: replace only on strictly greater
price, keeping the key at its original position. -/
def bestInsert (k : String) (o : Odds) : List (String × Odds) → List (String × Odds)
  | [] => [(k, o)]
  | (k2, p) :: t =>
    if k2 = k then (if priceD p < priceD o then (k2, o) else (k2, p)) :: t
    else (k2, p) :: bestInsert k o t

/-- Fold of `_best_price_by_outcome` over the rows of the group. -/
def bestFold (spreads : Bool) (g : List Odds) : List (String × Odds) :=
  g.foldl (fun acc o => bestInsert (if spreads then spreadSideKey o else o.outcome) o acc) []

/-- Model of `_best_price_by_outcome`: the market is read off the first row. -/
def bestPriceByOutcome (g : List Odds) : List (String × Odds) :=
  match g with
  | [] => []
  | o0 :: _ => bestFold (decide (lowerStr o0.market = "spreads")) g

/-- The loop of `_calc_arb_margin`: accumulate the inverse sum, returning 0
as soon as a non-positive price is seen. -/
def calcInvLoop : List ℚ → ℚ → ℚ
  | [], acc => if acc < 1 then (1 - acc) * 100 else 0
  | p :: rest, acc => if p ≤ 0 then 0 else calcInvLoop rest (acc + 1 / p)

/-- Model of `_calc_arb_margin` on the best-price mapping (values in dict order). -/
def calcArbMargin (best : List (String × Odds)) : ℚ :=
  calcInvLoop (best.map fun kp => priceD kp.2) 0

/-- Sum of price reciprocals of a best-price mapping (specification side of
the margin formula). -/
def invSum (best : List (String × Odds)) : ℚ :=
  (best.map fun kp => 1 / priceD kp.2).sum

/-- One element of the `best_odds` payload of an opportunity. -/
structure BestOdd where
  sportsbook : String
  outcome : String
  odds_decimal : ℚ
  line : Option String
deriving DecidableEq, Repr

/-- One emitted arbitrage opportunity record. -/
structure Opp where
  event : String
  league : String
  market : String
  line : Option String
  commence_time : Option ℚ
  profit_margin : ℚ
  best_odds : List BestOdd
deriving DecidableEq, Repr

/-- The per-bucket body of the loop in `get_arbitrage`: skip buckets with
fewer than two outcome keys, skip margins that are ≤ 0 or below the
threshold, otherwise build the opportunity record with the margin rounded
to 3 decimals. -/
def emitBucket (minMargin : ℚ) (key : String × String × Option String)
    (g : List Odds) : Option Opp :=
  let best := bestPriceByOutcome g
  if best.length < 2 then none
  else
    let margin := calcArbMargin best
    if margin ≤ 0 ∨ margin < minMargin then none
    else
      some
        { event := key.1
          league := match g with | [] => "" | s :: _ => lowerStr s.league
          market := key.2.1
          line := key.2.2
          commence_time := match g with | [] => none | s :: _ => s.commence_time
          profit_margin := roundTo3 margin
          best_odds := best.map fun kp =>
            { sportsbook := kp.2.sportsbook
              outcome := kp.1
              odds_decimal := priceD kp.2
              line := coerceLine kp.2.line } }

/-- The unsorted opportunity list of `get_arbitrage`. -/
def scoredOpps (rows : List Odds) (cfg : ArbCfg) (now : ℚ) : List Opp :=
  (groupByEML (applyRowFilters rows cfg now)).filterMap fun p =>
    emitBucket cfg.min_margin p.1 p.2

/-- Generic insertion into a list sorted by a boolean comparator. -/
def insertLeB {α : Type} (le : α → α → Bool) (x : α) : List α → List α
  | [] => [x]
  | y :: ys => if le x y then x :: y :: ys else y :: insertLeB le x ys

/-- Insertion sort by a boolean comparator (models Python `list.sort`; tie
order is not relied upon by any claim). -/
def insSortBy {α : Type} (le : α → α → Bool) : List α → List α
  | [] => []
  | x :: xs => insertLeB le x (insSortBy le xs)

/-- Order on optional timestamps matching the `commence_time or ""`
ISO-string comparison (missing sorts first; ISO order is chronological). -/
def optTimeLE : Option ℚ → Option ℚ → Bool
  | none, _ => true
  | some _, none => false
  | some a, some b => decide (a ≤ b)

/-- The sort key comparison of `get_arbitrage` (default key: profit). -/
def oppLE (sortBy : String) (a b : Opp) : Bool :=
  if sortBy = "date" then optTimeLE a.commence_time b.commence_time
  else if sortBy = "league" then decide (a.league ≤ b.league)
  else if sortBy = "event" then decide (a.event ≤ b.event)
  else decide (a.profit_margin ≤ b.profit_margin)

/-- Comparator after applying `reverse=(sort_dir == "desc")`. -/
def oppCmp (cfg : ArbCfg) (a b : Opp) : Bool :=
  if lowerStr cfg.sort_dir = "desc" then oppLE cfg.sort_by b a
  else oppLE cfg.sort_by a b

/-- Model of `opportunities.sort(key=sort_key, reverse=reverse)`. -/
def sortOpps (cfg : ArbCfg) (l : List Opp) : List Opp :=
  insSortBy (oppCmp cfg) l

/-- One leg (over or under) of a totals middle candidate. -/
structure MidLeg where
  sportsbook : String
  line : ℚ
  odds_decimal : Option ℚ
deriving DecidableEq, Repr

/-- One totals middle candidate of `_detect_middles_totals`. -/
structure MiddleCand where
  event : String
  over : MidLeg
  under : MidLeg
  middle_width : ℚ
  commence_time : Option ℚ
deriving DecidableEq, Repr

/-- Model of `read_line`: `float(str(x.line))`; `str(None) = "None"` never parses. -/
def readLine (o : Odds) : Option ℚ :=
  match o.line with
  | none => none
  | some s => parseFloat s

/-- Update the per-line best dict: replace only on strictly greater price. -/
def bestLineInsert (l : ℚ) (o : Odds) : List (ℚ × Odds) → List (ℚ × Odds)
  | [] => [(l, o)]
  | (l2, p) :: t =>
    if l2 = l then (if priceD p < priceD o then (l2, o) else (l2, p)) :: t
    else (l2, p) :: bestLineInsert l o t

/-- Best (max-price) quote per distinct numeric line; unparseable lines are
skipped. -/
def bestByLine (xs : List Odds) : List (ℚ × Odds) :=
  xs.foldl
    (fun acc o =>
      match readLine o with
      | none => acc
      | some l => bestLineInsert l o acc)
    []

/-- Sort the per-line dict entries by line (`sorted(dict.keys())`). -/
def sortByLineQ (l : List (ℚ × Odds)) : List (ℚ × Odds) :=
  insSortBy (fun a b => decide (a.1 ≤ b.1)) l

/-- Build one middle candidate record. -/
def mkMiddle (event : String) (lo : ℚ) (orow : Odds) (lu : ℚ) (urow : Odds) :
    MiddleCand :=
  { event := event
    over := { sportsbook := orow.sportsbook, line := lo, odds_decimal := orow.odds_decimal }
    under := { sportsbook := urow.sportsbook, line := lu, odds_decimal := urow.odds_decimal }
    middle_width := lu - lo
    commence_time :=
      match orow.commence_time with
      | some c => some c
      | none => urow.commence_time }

/-- Inner loop of `_detect_middles_totals` over the sorted under lines for
one over line. -/
def middleInner (minW minP : ℚ) (event : String) (lo : ℚ) (orow : Odds) :
    List (ℚ × Odds) → List MiddleCand
  | [] => []
  | (lu, urow) :: rest =>
    if lu ≤ lo then middleInner minW minP event lo orow rest
    else if priceD urow < minP then middleInner minW minP event lo orow rest
    else if lu - lo < minW then middleInner minW minP event lo orow rest
    else mkMiddle event lo orow lu urow :: middleInner minW minP event lo orow rest

/-- Outer loop of `_detect_middles_totals` over the sorted over lines; an
over leg priced below `minP` skips its whole inner loop. -/
def middleOuter (minW minP : ℚ) (event : String) (unders : List (ℚ × Odds)) :
    List (ℚ × Odds) → List MiddleCand
  | [] => []
  | (lo, orow) :: rest =>
    if priceD orow < minP then middleOuter minW minP event unders rest
    else
      middleInner minW minP event lo orow unders ++
        middleOuter minW minP event unders rest

/-- Per-event body of `_detect_middles_totals`. -/
def detectEvent (minW minP : ℚ) (event : String) (lst : List Odds) :
    List MiddleCand :=
  let overs := lst.filter fun o => startsWithChars ['o', 'v', 'e', 'r'] (lowerStr o.outcome).toList
  let unders := lst.filter fun o => startsWithChars ['u', 'n', 'd', 'e', 'r'] (lowerStr o.outcome).toList
  if overs.isEmpty || unders.isEmpty then []
  else
    let bo := sortByLineQ (bestByLine overs)
    let bu := sortByLineQ (bestByLine unders)
    if bo.isEmpty || bu.isEmpty then []
    else middleOuter minW minP event bu bo

/-- Model of `_detect_middles_totals`: totals rows only, grouped by event. -/
def detectMiddlesTotals (rows : List Odds) (minW minP : ℚ) : List MiddleCand :=
  (groupByKey (fun o => o.event)
      (rows.filter fun o => decide (lowerStr o.market = "totals"))).foldr
    (fun p acc => detectEvent minW minP p.1 p.2 ++ acc) []

/-- Result record of `get_arbitrage` (the fields the claims concern). -/
structure ArbResult where
  total : Nat
  opportunities : List Opp
  middles : List MiddleCand
deriving DecidableEq, Repr

/-- Comparator of the middles sort (by width then commence time, reversed). -/
def middleCmp (a b : MiddleCand) : Bool :=
  if b.middle_width < a.middle_width then true
  else if a.middle_width < b.middle_width then false
  else optTimeLE b.commence_time a.commence_time

/-- Model of `get_arbitrage`: filter, group, score, sort, paginate; middles on demand. -/
def getArbitrage (rows : List Odds) (cfg : ArbCfg) (now : ℚ)
    (page limit : Nat) : ArbResult :=
  let sorted := sortOpps cfg (scoredOpps rows cfg now)
  let start := (page - 1) * limit
  { total := sorted.length
    opportunities := (sorted.drop start).take limit
    middles :=
      if cfg.show_middles then
        insSortBy middleCmp
          (detectMiddlesTotals (applyRowFilters rows cfg now)
            cfg.middle_min_width cfg.middle_min_price)
      else [] }

/-- The `(event, market, line, outcome)` key of `_collect_books_summary`. -/
def emoKey (o : Odds) : String × String × Option String × String :=
  (o.event, lowerStr o.market, coerceLine o.line, o.outcome)

/-- Grouping of `_collect_books_summary`. -/
def byEmo (rows : List Odds) :
    List ((String × String × Option String × String) × List Odds) :=
  groupByKey emoKey rows

/-- Sum a per-row contribution over all rows of all groups, in iteration
order (models reading an accumulator dict built by the nested loops). -/
def groupsSum {κ M : Type} [AddCommMonoid M] (f : Odds → M)
    (gs : List (κ × List Odds)) : M :=
  (gs.map fun p => (p.2.map f).sum).sum

/-- Contribution of one row to `avg_odds_n[b]`: rows with an empty
sportsbook are skipped, every other row counts once for its book. -/
def avgContribN (b : String) (o : Odds) : Nat :=
  if o.sportsbook = "" then 0 else if o.sportsbook = b then 1 else 0

/-- Contribution of one row to `avg_odds_sum[b]`: its price, whatever its
sign. -/
def avgContribQ (b : String) (o : Odds) : ℚ :=
  if o.sportsbook = "" then 0 else if o.sportsbook = b then priceD o else 0

/-- The counter `avg_odds_n[b]` after the loops of `_collect_books_summary`. -/
def avgOddsN (rows : List Odds) (b : String) : Nat :=
  groupsSum (avgContribN b) (byEmo rows)

/-- The accumulator `avg_odds_sum[b]` after the loops of `_collect_books_summary`. -/
def avgOddsSum (rows : List Odds) (b : String) : ℚ :=
  groupsSum (avgContribQ b) (byEmo rows)

/-! ## Concrete inputs used by witnesses and counterexamples -/

/-- A configuration with no set filters and all defaults. -/
def cfgBase : ArbCfg :=
  { leagues := none
    markets := none
    sportsbooks := none
    min_margin := 0
    min_hours_ahead := 0
    show_middles := false
    middle_min_width := 1 / 2
    middle_min_price := 187 / 100
    sort_by := "profit"
    sort_dir := "desc" }

/-- Two h2h quotes on one event at price 2 and price 4. -/
def rowPx2 : Odds :=
  { sportsbook := "X", league := "NBA", event := "E", market := "h2h"
    outcome := "A", line := none, odds_decimal := some 2, commence_time := some 5 }

def rowPx4 : Odds :=
  { sportsbook := "Y", league := "NBA", event := "E", market := "h2h"
    outcome := "B", line := none, odds_decimal := some 4, commence_time := some 5 }

/-- Best-price mapping with prices 2 and 4 (inverse sum 3/4, margin 25%). -/
def bestC1 : List (String × Odds) := [("A", rowPx2), ("B", rowPx4)]

/-- Best-price mapping whose second price is non-positive. -/
def rowNeg : Odds :=
  { sportsbook := "X", league := "NBA", event := "E", market := "h2h"
    outcome := "A", line := none, odds_decimal := some (-1), commence_time := some 5 }

def bestC7 : List (String × Odds) := [("A", rowPx2), ("B", rowNeg)]

/-- Two h2h quotes both at price 4: inverse sum 1/2, margin exactly 50%.
Every float operation on this input is exact (1/4.0 and 50.0 are binary
floating-point values), so the float code computes exactly 50.0 here and
the rational model coincides with it, including at the threshold. -/
def rowHalfA : Odds :=
  { sportsbook := "X", league := "NBA", event := "E", market := "h2h"
    outcome := "A", line := none, odds_decimal := some 4, commence_time := some 5 }

/-- The second outcome of the margin-50% bucket, also priced 4. -/
def rowHalfB : Odds :=
  { sportsbook := "Y", league := "NBA", event := "E", market := "h2h"
    outcome := "B", line := none, odds_decimal := some 4, commence_time := some 5 }

/-- The two-quote snapshot whose bucket has margin exactly 50%. -/
def rowsC2 : List Odds := [rowHalfA, rowHalfB]

/-- Threshold exactly equal to the 50% margin of `rowsC2`. -/
def cfgC2 : ArbCfg := { cfgBase with min_margin := 50 }

/-- Lead-hours filter set to −2 hours (allowed: the parameter has no lower
bound). -/
def cfgC5 : ArbCfg := { cfgBase with min_hours_ahead := -2 }

/-- A quote that commenced one hour ago (now = 0). -/
def rowPast : Odds :=
  { sportsbook := "X", league := "NBA", event := "E", market := "h2h"
    outcome := "A", line := none, odds_decimal := some 2, commence_time := some (-1) }

/-- Sportsbook filter holding the lower-cased title. -/
def cfgC6 : ArbCfg := { cfgBase with sportsbooks := some ["bet365"] }

/-- A quote whose sportsbook title differs from the filter only in case. -/
def rowBet : Odds :=
  { sportsbook := "Bet365", league := "NBA", event := "E", market := "h2h"
    outcome := "A", line := none, odds_decimal := some 2, commence_time := some 5 }

/-- A quote whose sportsbook is not in the filter at all. -/
def rowPinn : Odds :=
  { sportsbook := "Pinnacle", league := "NBA", event := "E", market := "h2h"
    outcome := "A", line := none, odds_decimal := some 2, commence_time := some 5 }

/-- The opportunity record the `rowsC2` bucket emits. -/
def oppC2 : Opp :=
  { event := "E", league := "nba", market := "h2h", line := none
    commence_time := some 5, profit_margin := 50
    best_odds :=
      [{ sportsbook := "X", outcome := "A", odds_decimal := 4, line := none },
       { sportsbook := "Y", outcome := "B", odds_decimal := 4, line := none }] }

/-- Two spreads quotes on the same event whose lines differ only in
formatting and sign. -/
def rowSpA : Odds :=
  { sportsbook := "X", league := "NBA", event := "E", market := "spreads"
    outcome := "T1 -2.5", line := some "-2.500", odds_decimal := some 2
    commence_time := some 5 }

/-- The mirrored side of the same spread market as `rowSpA`. -/
def rowSpB : Odds :=
  { sportsbook := "Y", league := "NBA", event := "E", market := "spreads"
    outcome := "T2 +2.5", line := some "2.5", odds_decimal := some 2
    commence_time := some 5 }

/-- A totals row of event `"G"` for a parametric sportsbook. -/
def mkTotRow (bk outc ln : String) (pr : ℚ) : Odds :=
  { sportsbook := bk, league := "NFL", event := "G", market := "totals"
    outcome := outc, line := some ln, odds_decimal := some pr
    commence_time := some 10 }

/-- One best Over at 47.5 and one best Under at 49.5, both priced 1.91,
quoted by books `b1` and `b2`. -/
def totPair (b1 b2 : String) : List Odds :=
  [mkTotRow b1 "Over" "47.5" (191 / 100), mkTotRow b2 "Under" "49.5" (191 / 100)]

/-- Three quotes: two (one negatively priced) from book `"B"`, one from
book `"C"`. -/
def rowsC9 : List Odds :=
  [{ sportsbook := "B", league := "NBA", event := "E", market := "h2h"
     outcome := "A", line := none, odds_decimal := some 2, commence_time := some 5 },
   { sportsbook := "B", league := "NBA", event := "E", market := "h2h"
     outcome := "B", line := none, odds_decimal := some (-1), commence_time := some 5 },
   { sportsbook := "C", league := "NBA", event := "E", market := "h2h"
     outcome := "A", line := none, odds_decimal := some 3, commence_time := some 5 }]

/-! ## General lemmas about the margin loop -/

theorem calcInvLoop_eq_of_pos (ps : List ℚ) :
    ∀ acc : ℚ, (∀ p ∈ ps, 0 < p) →
      calcInvLoop ps acc =
        if acc + (ps.map fun p => 1 / p).sum < 1 then
          (1 - (acc + (ps.map fun p => 1 / p).sum)) * 100
        else 0 := by
  induction ps with
  | nil => intro acc _; simp [calcInvLoop]
  | cons p rest ih =>
    intro acc h
    have hp : 0 < p := h p (List.mem_cons_self p rest)
    have hnp : ¬p ≤ 0 := not_le.mpr hp
    have hrest : ∀ q ∈ rest, 0 < q := fun q hq => h q (List.mem_cons_of_mem p hq)
    simp only [calcInvLoop, if_neg hnp, List.map_cons, List.sum_cons]
    rw [ih (acc + 1 / p) hrest, ← add_assoc]

theorem calcInvLoop_zero_of_nonpos (ps : List ℚ) :
    ∀ acc : ℚ, (∃ p ∈ ps, p ≤ 0) → calcInvLoop ps acc = 0 := by
  induction ps with
  | nil => intro acc h; obtain ⟨p, hp, _⟩ := h; exact absurd hp (List.not_mem_nil p)
  | cons p rest ih =>
    intro acc h
    by_cases hp : p ≤ 0
    · simp [calcInvLoop, if_pos hp]
    · obtain ⟨q, hq, hq0⟩ := h
      rcases List.mem_cons.mp hq with rfl | hq'
      · exact absurd hq0 hp
      · simp only [calcInvLoop, if_neg hp]
        exact ih _ ⟨q, hq', hq0⟩

/-! ## Length lemmas for the sort and pagination -/

theorem insertLeB_length {α : Type} (le : α → α → Bool) (x : α) :
    ∀ l : List α, (insertLeB le x l).length = l.length + 1 := by
  intro l
  induction l with
  | nil => rfl
  | cons y ys ih =>
    simp only [insertLeB]
    split
    · simp
    · simp [ih]

theorem insSortBy_length {α : Type} (le : α → α → Bool) :
    ∀ l : List α, (insSortBy le l).length = l.length := by
  intro l
  induction l with
  | nil => rfl
  | cons x xs ih => simp [insSortBy, insertLeB_length, ih]

/-! ## Claim theorems -/

/-- Claim C1: for every bucket best-price mapping whose n ≥ 2 selected
prices are all strictly positive, `_calc_arb_margin` computes
max(0, (1 − Σ 1/pᵢ) · 100), and any opportunity emitted from a bucket with
that best-price mapping records exactly that value rounded to 3 decimal
places. -/
theorem C1_margin_formula (best : List (String × Odds))
    (hn : 2 ≤ best.length) (hpos : ∀ kp ∈ best, 0 < priceD kp.2) :
    calcArbMargin best = max 0 ((1 - invSum best) * 100) ∧
      ∀ (minM : ℚ) (key : String × String × Option String) (g : List Odds)
        (opp : Opp), bestPriceByOutcome g = best →
        emitBucket minM key g = some opp →
        opp.profit_margin = roundTo3 (max 0 ((1 - invSum best) * 100)) := by
  have hpos' : ∀ p ∈ best.map fun kp => priceD kp.2, 0 < p := by
    intro p hp
    obtain ⟨kp, hkp, rfl⟩ := List.mem_map.mp hp
    exact hpos kp hkp
  have hsum : ((best.map fun kp => priceD kp.2).map fun p => 1 / p).sum = invSum best := by
    simp [invSum, List.map_map, Function.comp_def, one_div]
  have hcore : calcArbMargin best = max 0 ((1 - invSum best) * 100) := by
    unfold calcArbMargin
    rw [calcInvLoop_eq_of_pos _ 0 hpos', hsum, zero_add]
    by_cases hS : invSum best < 1
    · rw [if_pos hS, max_eq_right (by nlinarith)]
    · rw [if_neg hS, eq_comm, max_eq_left (by push_neg at hS; nlinarith)]
  refine ⟨hcore, ?_⟩
  intro minM key g opp hbest hemit
  simp only [emitBucket, hbest] at hemit
  split_ifs at hemit with h1 h2 <;>
    first
      | exact Option.noConfusion hemit
      | · obtain rfl := Option.some.inj hemit
          show roundTo3 (calcArbMargin best) = _
          rw [hcore]

/-- Witness for C1 at prices 2 and 4 (inverse sum 3/4, margin 25%). -/
theorem C1_margin_formula_witness :
    2 ≤ bestC1.length ∧ calcArbMargin bestC1 = max 0 ((1 - invSum bestC1) * 100) :=
  ⟨by decide,
    (C1_margin_formula bestC1 (by decide)
      (by intro kp hkp; fin_cases hkp <;> norm_num [priceD, rowPx2, rowPx4])).1⟩

/-- Claim C2 (amended): a bucket is emitted iff its best-price mapping has
at least 2 distinct outcome keys, its margin is strictly positive and its
margin is at least (not strictly above) the caller threshold; a bucket
with exactly one outcome key is never emitted. -/
theorem C2_emit_iff (minM : ℚ) (key : String × String × Option String)
    (g : List Odds) :
    ((emitBucket minM key g).isSome = true ↔
      2 ≤ (bestPriceByOutcome g).length ∧
        0 < calcArbMargin (bestPriceByOutcome g) ∧
        minM ≤ calcArbMargin (bestPriceByOutcome g)) ∧
      ((bestPriceByOutcome g).length = 1 → emitBucket minM key g = none) := by
  constructor
  · simp only [emitBucket]
    split_ifs with h1 h2
    · simp only [Option.isSome_none, Bool.false_eq_true, false_iff]
      rintro ⟨hlen, -, -⟩
      omega
    · simp only [Option.isSome_none, Bool.false_eq_true, false_iff]
      rintro ⟨-, hm0, hmm⟩
      rcases h2 with h | h <;> linarith
    · simp only [Option.isSome_some, true_iff]
      push_neg at h2
      exact ⟨by omega, h2.1, h2.2⟩
  · intro hlen
    simp only [emitBucket]
    rw [if_pos (by omega)]

/-- Witness for C2 (amended): a single-outcome bucket is never emitted. -/
theorem C2_emit_iff_witness :
    (bestPriceByOutcome [rowPx2]).length = 1 ∧
      emitBucket 0 ("E", "h2h", none) [rowPx2] = none :=
  ⟨by decide, (C2_emit_iff 0 ("E", "h2h", none) [rowPx2]).2 (by decide)⟩

/-- The two `rowsC2` quotes survive the row-level filter unchanged. -/
theorem rowsC2_filtered : applyRowFilters rowsC2 cfgC2 0 = rowsC2 := by
  norm_num [applyRowFilters, rowsC2, keepRow, rowHalfA, rowHalfB, cfgC2, cfgBase,
    passesSetLower, passesSetRaw, setActive, List.filter]

/-- Both `rowsC2` quotes land in the single h2h bucket of event `"E"`. -/
theorem rowsC2_grouped :
    groupByEML rowsC2 = [((("E" : String), ("h2h" : String), (none : Option String)), rowsC2)] := by
  simp +decide [groupByEML, groupByKey, insertAssoc, groupKeyOf, rowsC2, rowHalfA, rowHalfB]

/-- Best-price mapping of the `rowsC2` bucket. -/
theorem rowsC2_best :
    bestPriceByOutcome rowsC2 = [("A", rowHalfA), ("B", rowHalfB)] := by
  simp +decide [bestPriceByOutcome, bestFold, bestInsert, rowsC2, rowHalfA, rowHalfB]

/-- The margin of the `rowsC2` bucket is exactly 50%. -/
theorem rowsC2_margin : calcArbMargin (bestPriceByOutcome rowsC2) = 50 := by
  rw [rowsC2_best]
  norm_num [calcArbMargin, calcInvLoop, priceD, rowHalfA, rowHalfB]

/-- With threshold exactly 50, the 50%-margin bucket is still emitted. -/
theorem rowsC2_emitted :
    emitBucket cfgC2.min_margin ("E", "h2h", none) rowsC2 = some oppC2 := by
  have hm := rowsC2_margin
  rw [rowsC2_best] at hm
  simp only [emitBucket, rowsC2_best, hm]
  rw [if_neg (by norm_num), if_neg (by norm_num [cfgC2, cfgBase])]
  rw [show roundTo3 (50 : ℚ) = 50 from by norm_num [roundTo3, roundHalfEven]]
  simp [oppC2, rowsC2, rowHalfA, rowHalfB, priceD, coerceLine]
  decide

/-- Claim C2 counterexample: with `min_margin = 50` and a bucket of two
price-4 quotes whose margin is exactly 50 (an input on which the float code
computes exactly the same values, since 1/4 and 50.0 are binary
floating-point numbers), `get_arbitrage` emits the opportunity although the
margin does not exceed the threshold. -/
theorem C2_counterexample :
    (getArbitrage rowsC2 cfgC2 0 1 50).total = 1 ∧
      calcArbMargin (bestPriceByOutcome rowsC2) = 50 ∧ cfgC2.min_margin = 50 := by
  refine ⟨?_, rowsC2_margin, rfl⟩
  have hscored : scoredOpps rowsC2 cfgC2 0 = [oppC2] := by
    rw [scoredOpps, rowsC2_filtered, rowsC2_grouped]
    simp [List.filterMap, rowsC2_emitted]
  simp [getArbitrage, sortOpps, hscored, insSortBy_length]

/-- Claim C5 (amended): for every lead-hours parameter that is at least −1,
a quote whose commence time is one hour in the past is excluded by
`_apply_row_level_filters`. -/
theorem C5_past_quote_excluded (cfg : ArbCfg) (now : ℚ) (o : Odds)
    (hL : (-1 : ℚ) ≤ cfg.min_hours_ahead)
    (hct : o.commence_time = some (now - 1)) :
    keepRow cfg now o = false := by
  simp only [keepRow, hct]
  rw [if_pos (by linarith)]

/-- Witness for C5 with the default lead-hours value 0. -/
theorem C5_past_quote_excluded_witness :
    (-1 : ℚ) ≤ cfgBase.min_hours_ahead ∧ keepRow cfgBase 0 rowPast = false :=
  ⟨by norm_num [cfgBase],
    C5_past_quote_excluded cfgBase 0 rowPast (by norm_num [cfgBase])
      (by norm_num [rowPast])⟩

/-- Claim C5 counterexample: with lead-hours −2 (the parameter has no lower
bound), a quote that commenced one hour ago passes the filter. -/
theorem C5_counterexample :
    cfgC5.min_hours_ahead = -2 ∧ rowPast.commence_time = some ((0 : ℚ) - 1) ∧
      keepRow cfgC5 0 rowPast = true := by
  refine ⟨rfl, by norm_num [rowPast], ?_⟩
  norm_num [keepRow, rowPast, cfgC5, cfgBase, passesSetLower, passesSetRaw, setActive]

/-- Claim C6 (amended): when a non-empty sportsbook filter is active and a
quote passes the time, league and market checks, the quote is rejected
exactly when its raw (case-sensitive, not lower-cased) sportsbook value is
not a member of the filter set. -/
theorem C6_sportsbook_filter_raw (cfg : ArbCfg) (now : ℚ) (o : Odds)
    (l : List String) (ct : ℚ)
    (hb : cfg.sportsbooks = some l) (hl : l ≠ [])
    (hct : o.commence_time = some ct)
    (htime : now + cfg.min_hours_ahead < ct)
    (hlg : passesSetLower cfg.leagues o.league = true)
    (hmk : passesSetLower cfg.markets o.market = true) :
    keepRow cfg now o = false ↔ o.sportsbook ∉ l := by
  simp only [keepRow, hct]
  rw [if_neg (not_le.mpr htime)]
  cases l with
  | nil => exact absurd rfl hl
  | cons a t =>
    simp [hlg, hmk, passesSetRaw, setActive, hb]

/-- Witness for C6: a book absent from the filter set is rejected. -/
theorem C6_sportsbook_filter_raw_witness :
    cfgC6.sportsbooks = some ["bet365"] ∧
      (keepRow cfgC6 0 rowPinn = false ↔ rowPinn.sportsbook ∉ ["bet365"]) :=
  ⟨rfl,
    C6_sportsbook_filter_raw cfgC6 0 rowPinn ["bet365"] 5 rfl (by simp) rfl
      (by norm_num [cfgC6, cfgBase]) rfl rfl⟩

/-- Claim C6 counterexample: a quote whose sportsbook matches the filter
only up to case is rejected, although its lower-cased value is a member;
the same quote passes when no sportsbook filter is active. -/
theorem C6_counterexample :
    cfgC6.sportsbooks = some ["bet365"] ∧
      lowerStr rowBet.sportsbook ∈ ["bet365"] ∧
      keepRow cfgC6 0 rowBet = false ∧ keepRow cfgBase 0 rowBet = true := by
  refine ⟨rfl, by decide, ?_, ?_⟩
  · norm_num [keepRow, rowBet, cfgC6, cfgBase, passesSetLower, passesSetRaw, setActive]
    decide
  · norm_num [keepRow, rowBet, cfgBase, passesSetLower, passesSetRaw, setActive]

/-- Evaluation: `float("-2.500")`. -/
theorem parseFloat_m2500 : parseFloat "-2.500" = some (-(5 / 2) : ℚ) := by
  simp +decide [parseFloat, parseUnsigned, trimChars, pySpace, digitsToNat, digitVal]
  norm_num

/-- Evaluation: `float("2.5")`. -/
theorem parseFloat_25 : parseFloat "2.5" = some ((5 / 2) : ℚ) := by
  simp +decide [parseFloat, parseUnsigned, trimChars, pySpace, digitsToNat, digitVal]
  norm_num

/-- Evaluation: `float("+2.5")`. -/
theorem parseFloat_p25 : parseFloat "+2.5" = some ((5 / 2) : ℚ) := by
  simp +decide [parseFloat, parseUnsigned, trimChars, pySpace, digitsToNat, digitVal]
  norm_num

/-- Evaluation: `float("-2.5")`. -/
theorem parseFloat_m25 : parseFloat "-2.5" = some (-(5 / 2) : ℚ) := by
  simp +decide [parseFloat, parseUnsigned, trimChars, pySpace, digitsToNat, digitVal]
  norm_num

/-- Evaluation: `float("-3")`. -/
theorem parseFloat_m3 : parseFloat "-3" = some ((-3 : ℤ) : ℚ) := by
  simp +decide [parseFloat, parseUnsigned, trimChars, pySpace, digitsToNat, digitVal]

/-- The spread keys of `"-2.500"`, `"2.5"`, `"+2.5"` and `"-2.5"` all
normalize to `"2.5"`. -/
theorem normAbsSpread_all25 :
    normAbsSpread (some "-2.500") = some "2.5" ∧
      normAbsSpread (some "2.5") = some "2.5" ∧
      normAbsSpread (some "+2.5") = some "2.5" ∧
      normAbsSpread (some "-2.5") = some "2.5" := by
  have habs : |(-(5 / 2) : ℚ)| = 5 / 2 := by
    rw [abs_neg, abs_of_nonneg (by norm_num : (0 : ℚ) ≤ 5 / 2)]
  have habs2 : |((5 / 2) : ℚ)| = 5 / 2 := abs_of_nonneg (by norm_num)
  have hr : roundHalfEven ((5 / 2 : ℚ) * 1000) = 2500 := by
    norm_num [roundHalfEven]
  refine ⟨?_, ?_, ?_, ?_⟩ <;>
    simp only [normAbsSpread, show pyStrip "-2.500" = "-2.500" from by decide,
      show pyStrip "2.5" = "2.5" from by decide,
      show pyStrip "+2.5" = "+2.5" from by decide,
      show pyStrip "-2.5" = "-2.5" from by decide,
      parseFloat_m2500, parseFloat_25, parseFloat_p25, parseFloat_m25, habs, habs2, hr]
  all_goals decide

/-- The spread key of `"-3"` normalizes to `"3"`. -/
theorem normAbsSpread_m3 : normAbsSpread (some "-3") = some "3" := by
  have habs : |((-3 : ℤ) : ℚ)| = 3 := by
    norm_num
  have hr : roundHalfEven ((3 : ℚ) * 1000) = 3000 := by
    norm_num [roundHalfEven]
  simp only [normAbsSpread, show pyStrip "-3" = "-3" from by decide, parseFloat_m3,
    habs, hr]
  decide

/-- Claim C3: for spreads quotes of one event/market, lines `-2.500` and
`2.5` (and `-2.5` and `+2.5`) get the same grouping key and bucket, lines
`-3` and `+2.5` get different keys, and an unparseable line falls back to
the trimmed raw string without raising. -/
theorem C3_spread_grouping :
    (∀ o1 o2 : Odds, lowerStr o1.market = "spreads" → o1.market = o2.market →
      o1.event = o2.event → o1.line = some "-2.500" → o2.line = some "2.5" →
      groupKeyOf o1 = groupKeyOf o2) ∧
      (∀ o1 o2 : Odds, lowerStr o1.market = "spreads" → o1.market = o2.market →
        o1.event = o2.event → o1.line = some "-2.5" → o2.line = some "+2.5" →
        groupKeyOf o1 = groupKeyOf o2) ∧
      (∀ o1 o2 : Odds, lowerStr o1.market = "spreads" → lowerStr o2.market = "spreads" →
        o1.line = some "-3" → o2.line = some "+2.5" →
        groupKeyOf o1 ≠ groupKeyOf o2) ∧
      (∀ s : String, parseFloat (pyStrip s) = none → pyStrip s ≠ "" →
        normAbsSpread (some s) = some (pyStrip s)) := by
  obtain ⟨h2500, h25, hp25, hm25⟩ := normAbsSpread_all25
  refine ⟨?_, ?_, ?_, ?_⟩
  · intro o1 o2 hm1 hmm hev hl1 hl2
    have hm2 : lowerStr o2.market = "spreads" := by rw [← hmm]; exact hm1
    simp [groupKeyOf, hm1, hm2, hev, hmm, hl1, hl2, h2500, h25]
  · intro o1 o2 hm1 hmm hev hl1 hl2
    have hm2 : lowerStr o2.market = "spreads" := by rw [← hmm]; exact hm1
    simp [groupKeyOf, hm1, hm2, hev, hmm, hl1, hl2, hm25, hp25]
  · intro o1 o2 hm1 hm2 hl1 hl2 heq
    have h3 : (groupKeyOf o1).2.2 = (groupKeyOf o2).2.2 := by rw [heq]
    simp only [groupKeyOf, hm1, hm2, if_pos rfl, hl1, hl2, normAbsSpread_m3, hp25] at h3
    exact absurd (Option.some.inj h3) (by decide)
  · intro s hpf hne
    simp only [normAbsSpread, hpf, coerceLine]
    rw [if_neg hne]

/-- Witness for C3 on two concrete spreads quotes plus one unparseable
line. -/
theorem C3_spread_grouping_witness :
    groupKeyOf rowSpA = groupKeyOf rowSpB ∧
      normAbsSpread (some "abc") = some (pyStrip "abc") :=
  ⟨C3_spread_grouping.1 rowSpA rowSpB (by decide) rfl rfl rfl rfl,
    C3_spread_grouping.2.2.2 "abc" (by decide) (by decide)⟩

/-- Claim C7: whenever some selected quote of a best-price mapping has a
non-positive price, `_calc_arb_margin` returns exactly 0. -/
theorem C7_nonpositive_price_margin_zero (best : List (String × Odds))
    (kp : String × Odds) (hmem : kp ∈ best) (hp : priceD kp.2 ≤ 0) :
    calcArbMargin best = 0 := by
  unfold calcArbMargin
  exact calcInvLoop_zero_of_nonpos _ 0
    ⟨priceD kp.2, List.mem_map_of_mem _ hmem, hp⟩

/-- The inner loop over under lines keeps exactly the pairs with a higher
under line, an under price at or above `minP`, and enough width. -/
theorem middleInner_eq (minW minP : ℚ) (ev : String) (lo : ℚ) (orow : Odds) :
    ∀ unders : List (ℚ × Odds),
      middleInner minW minP ev lo orow unders =
        (unders.filter fun pu =>
          decide (lo < pu.1 ∧ minP ≤ priceD pu.2 ∧ minW ≤ pu.1 - lo)).map
          fun pu => mkMiddle ev lo orow pu.1 pu.2 := by
  intro unders
  induction unders with
  | nil => rfl
  | cons pu rest ih =>
    obtain ⟨lu, urow⟩ := pu
    simp only [middleInner, List.filter_cons]
    by_cases h1 : lu ≤ lo
    · rw [if_pos h1, ih, if_neg]
      simp only [decide_eq_true_eq]
      rintro ⟨h, -, -⟩
      exact absurd h (not_lt.mpr h1)
    · rw [if_neg h1]
      by_cases h2 : priceD urow < minP
      · rw [if_pos h2, ih, if_neg]
        simp only [decide_eq_true_eq]
        rintro ⟨-, h, -⟩
        exact absurd h (not_le.mpr h2)
      · rw [if_neg h2]
        by_cases h3 : lu - lo < minW
        · rw [if_pos h3, ih, if_neg]
          simp only [decide_eq_true_eq]
          rintro ⟨-, -, h⟩
          exact absurd h (not_le.mpr h3)
        · rw [if_neg h3, ih, if_pos]
          · simp
          · simp only [decide_eq_true_eq]
            exact ⟨not_le.mp h1, not_lt.mp h2, not_lt.mp h3⟩

/-- The outer loop of the totals middle scan emits exactly the pairs of
per-line best quotes that satisfy all four candidate conditions. -/
theorem middleOuter_eq (minW minP : ℚ) (ev : String) (unders : List (ℚ × Odds)) :
    ∀ overs : List (ℚ × Odds),
      middleOuter minW minP ev unders overs =
        (overs.map fun po =>
          (unders.filter fun pu =>
            decide (minP ≤ priceD po.2 ∧ po.1 < pu.1 ∧ minP ≤ priceD pu.2 ∧
              minW ≤ pu.1 - po.1)).map
            fun pu => mkMiddle ev po.1 po.2 pu.1 pu.2).flatten := by
  intro overs
  induction overs with
  | nil => rfl
  | cons po rest ih =>
    obtain ⟨lo, orow⟩ := po
    simp only [middleOuter, List.map_cons, List.flatten_cons]
    by_cases hP : priceD orow < minP
    · rw [if_pos hP, ih]
      have hnil : (unders.filter fun pu =>
          decide (minP ≤ priceD orow ∧ lo < pu.1 ∧ minP ≤ priceD pu.2 ∧
            minW ≤ pu.1 - lo)) = [] := by
        rw [List.filter_eq_nil_iff]
        intro pu _
        simp only [decide_eq_true_eq]
        rintro ⟨h, -, -, -⟩
        exact absurd h (not_le.mpr hP)
      rw [hnil]
      simp
    · rw [if_neg hP, ih, middleInner_eq]
      have hfilt : (unders.filter fun pu =>
            decide (lo < pu.1 ∧ minP ≤ priceD pu.2 ∧ minW ≤ pu.1 - lo)) =
          unders.filter fun pu =>
            decide (minP ≤ priceD orow ∧ lo < pu.1 ∧ minP ≤ priceD pu.2 ∧
              minW ≤ pu.1 - lo) := by
        apply List.filter_congr
        intro pu _
        simp only [decide_eq_decide]
        have h0 : minP ≤ priceD orow := not_lt.mp hP
        tauto
      rw [hfilt]

/-- Specialization of the pair enumeration to one over line and one under
line. -/
theorem middleOuter_single (minW minP : ℚ) (ev : String) (lo lu : ℚ)
    (orow urow : Odds) :
    middleOuter minW minP ev [(lu, urow)] [(lo, orow)] =
      if minP ≤ priceD orow ∧ lo < lu ∧ minP ≤ priceD urow ∧ minW ≤ lu - lo
      then [mkMiddle ev lo orow lu urow] else [] := by
  rw [middleOuter_eq]
  by_cases h : minP ≤ priceD orow ∧ lo < lu ∧ minP ≤ priceD urow ∧ minW ≤ lu - lo
  · rw [if_pos h]
    simp only [List.map_cons, List.map_nil, List.filter_cons, List.filter_nil,
      decide_eq_true h, if_true, List.flatten]
    simp
  · rw [if_neg h]
    simp only [List.map_cons, List.map_nil, List.filter_cons, List.filter_nil,
      decide_eq_false h, Bool.false_eq_true, if_false, List.flatten]
    simp

/-- Evaluation: `float("47.5")`. -/
theorem parseFloat_475 : parseFloat "47.5" = some ((95 / 2) : ℚ) := by
  simp +decide [parseFloat, parseUnsigned, trimChars, pySpace, digitsToNat, digitVal]
  norm_num

/-- Evaluation: `float("49.5")`. -/
theorem parseFloat_495 : parseFloat "49.5" = some ((99 / 2) : ℚ) := by
  simp +decide [parseFloat, parseUnsigned, trimChars, pySpace, digitsToNat, digitVal]
  norm_num

/-- Per-event evaluation on the two-quote snapshot: one over line 47.5 and
one under line 49.5 reach the pair loops. -/
theorem detectEvent_totPair (b1 b2 : String) (minW minP : ℚ) :
    detectEvent minW minP "G" (totPair b1 b2) =
      middleOuter minW minP "G" [(99 / 2, mkTotRow b2 "Under" "49.5" (191 / 100))]
        [(95 / 2, mkTotRow b1 "Over" "47.5" (191 / 100))] := by
  have hovers : (totPair b1 b2).filter
      (fun o => startsWithChars ['o', 'v', 'e', 'r'] (lowerStr o.outcome).toList) =
      [mkTotRow b1 "Over" "47.5" (191 / 100)] := by
    have h1 : startsWithChars ['o', 'v', 'e', 'r'] (lowerStr "Over").data = true := by
      decide
    have h2 : startsWithChars ['o', 'v', 'e', 'r'] (lowerStr "Under").data = false := by
      decide
    simp [totPair, List.filter_cons, mkTotRow, h1, h2]
  have hunders : (totPair b1 b2).filter
      (fun o => startsWithChars ['u', 'n', 'd', 'e', 'r'] (lowerStr o.outcome).toList) =
      [mkTotRow b2 "Under" "49.5" (191 / 100)] := by
    have h1 : startsWithChars ['u', 'n', 'd', 'e', 'r'] (lowerStr "Over").data = false := by
      decide
    have h2 : startsWithChars ['u', 'n', 'd', 'e', 'r'] (lowerStr "Under").data = true := by
      decide
    simp [totPair, List.filter_cons, mkTotRow, h1, h2]
  have e47 : digitsToNat ['4', '7'] = 47 := by decide
  have e49 : digitsToNat ['4', '9'] = 49 := by decide
  have e5 : digitsToNat ['5'] = 5 := by decide
  simp only [detectEvent, hovers, hunders, List.isEmpty_cons, Bool.or_self,
    Bool.false_eq_true, if_false]
  simp [bestByLine, readLine, mkTotRow, parseFloat_475, parseFloat_495,
    bestLineInsert, sortByLineQ, insSortBy, insertLeB, e47, e49, e5]
  norm_num

/-- With `minWidth = 0.5` and `minPrice = 1.87` the two-quote snapshot
produces exactly one middle candidate. -/
theorem detect_totPair (b1 b2 : String) :
    detectMiddlesTotals (totPair b1 b2) (1 / 2) (187 / 100) =
      [mkMiddle "G" (95 / 2) (mkTotRow b1 "Over" "47.5" (191 / 100)) (99 / 2)
        (mkTotRow b2 "Under" "49.5" (191 / 100))] := by
  have hfil : (totPair b1 b2).filter (fun o => decide (lowerStr o.market = "totals")) =
      totPair b1 b2 := by
    simp +decide [totPair, mkTotRow, List.filter]
  have hgrp : groupByKey (fun o => o.event) (totPair b1 b2) = [("G", totPair b1 b2)] := by
    simp +decide [groupByKey, insertAssoc, totPair, mkTotRow]
  rw [detectMiddlesTotals, hfil, hgrp, List.foldr_cons, List.foldr_nil,
    List.append_nil, detectEvent_totPair b1 b2, middleOuter_single]
  rw [if_pos]
  refine ⟨?_, ?_, ?_, ?_⟩ <;> norm_num [priceD, mkTotRow]

/-- With `minWidth = 0.5` and `minPrice = 2` the 1.91-priced over leg is
rejected, so the snapshot yields no middle candidate. -/
theorem detect_totPair_highMinP (b1 b2 : String) :
    detectMiddlesTotals (totPair b1 b2) (1 / 2) 2 = [] := by
  have hfil : (totPair b1 b2).filter (fun o => decide (lowerStr o.market = "totals")) =
      totPair b1 b2 := by
    simp +decide [totPair, mkTotRow, List.filter]
  have hgrp : groupByKey (fun o => o.event) (totPair b1 b2) = [("G", totPair b1 b2)] := by
    simp +decide [groupByKey, insertAssoc, totPair, mkTotRow]
  rw [detectMiddlesTotals, hfil, hgrp, List.foldr_cons, List.foldr_nil,
    List.append_nil, detectEvent_totPair b1 b2, middleOuter_single]
  rw [if_neg]
  rintro ⟨h, -, -, -⟩
  norm_num [priceD, mkTotRow] at h

/-- Claim C4: a pair of per-line best quotes yields a middle candidate
exactly when the under line exceeds the over line, both prices are at least
`minPrice`, and the gap is at least `minWidth`; on the two-quote example
(Over 47.5 and Under 49.5 both priced 1.91), thresholds (0.5, 1.87) produce
exactly one candidate of width 2 and thresholds (0.5, 2) produce none. -/
theorem C4_middle_candidates :
    (∀ (minW minP : ℚ) (ev : String) (unders overs : List (ℚ × Odds)),
      middleOuter minW minP ev unders overs =
        (overs.map fun po =>
          (unders.filter fun pu =>
            decide (minP ≤ priceD po.2 ∧ po.1 < pu.1 ∧ minP ≤ priceD pu.2 ∧
              minW ≤ pu.1 - po.1)).map
            fun pu => mkMiddle ev po.1 po.2 pu.1 pu.2).flatten) ∧
      (detectMiddlesTotals (totPair "BookA" "BookB") (1 / 2) (187 / 100)).map
        (fun c => c.middle_width) = [2] ∧
      detectMiddlesTotals (totPair "BookA" "BookB") (1 / 2) 2 = [] := by
  refine ⟨fun minW minP ev unders overs => middleOuter_eq minW minP ev unders overs,
    ?_, ?_⟩
  · rw [detect_totPair, List.map_cons, List.map_nil]
    norm_num [mkMiddle]
  · exact detect_totPair_highMinP "BookA" "BookB"

/-- Claim C10: the middle detector imposes no distinct-sportsbook
constraint: when one book quotes both the best Over at 47.5 and the best
Under at 49.5, the emitted candidate has both legs from that book. -/
theorem C10_same_sportsbook_candidate :
    (detectMiddlesTotals (totPair "BookA" "BookA") (1 / 2) (187 / 100)).map
      (fun c => (c.over.sportsbook, c.under.sportsbook)) = [("BookA", "BookA")] := by
  rw [detect_totPair, List.map_cons, List.map_nil]
  simp [mkMiddle, mkTotRow]

/-- Claim C8: `total` is independent of page and limit, equals the length of
the scored opportunity list before pagination, and a page starting at or
beyond `total` is empty. -/
theorem C8_pagination (rows : List Odds) (cfg : ArbCfg) (now : ℚ)
    (p1 l1 p2 l2 : Nat) :
    (getArbitrage rows cfg now p1 l1).total = (getArbitrage rows cfg now p2 l2).total ∧
      (getArbitrage rows cfg now p1 l1).total = (scoredOpps rows cfg now).length ∧
      ((getArbitrage rows cfg now p1 l1).total ≤ (p1 - 1) * l1 →
        (getArbitrage rows cfg now p1 l1).opportunities = []) := by
  refine ⟨rfl, ?_, ?_⟩
  · show (sortOpps cfg (scoredOpps rows cfg now)).length = _
    rw [sortOpps, insSortBy_length]
  · intro h
    show ((sortOpps cfg (scoredOpps rows cfg now)).drop ((p1 - 1) * l1)).take l1 = []
    rw [List.drop_eq_nil_of_le h, List.take_nil]

/-- Witness for C8 on the empty snapshot: page 1 of an empty scored list is
empty and `total` is 0. -/
theorem C8_pagination_witness :
    (getArbitrage [] cfgBase 0 1 50).total ≤ (1 - 1) * 50 ∧
      (getArbitrage [] cfgBase 0 1 50).opportunities = [] :=
  ⟨by decide, (C8_pagination [] cfgBase 0 1 50 2 3).2.2 (by decide)⟩

/-- Inserting one row into the grouped structure adds exactly its own
contribution to any groups-wide sum. -/
theorem groupsSum_insertAssoc {κ M : Type} [DecidableEq κ] [AddCommMonoid M]
    (f : Odds → M) (k : κ) (v : Odds) :
    ∀ l : List (κ × List Odds),
      groupsSum f (insertAssoc k v l) = groupsSum f l + f v := by
  intro l
  induction l with
  | nil => simp [insertAssoc, groupsSum]
  | cons p t ih =>
    obtain ⟨k2, g⟩ := p
    by_cases h : k2 = k
    · rw [insertAssoc, if_pos h]
      simp [groupsSum, add_assoc, add_comm, add_left_comm]
    · rw [insertAssoc, if_neg h]
      simp only [groupsSum, List.map_cons, List.sum_cons] at ih ⊢
      rw [ih, add_assoc]

/-- Folding the grouping over a row list adds the contribution of every row. -/
theorem groupsSum_fold {κ M : Type} [DecidableEq κ] [AddCommMonoid M]
    (f : Odds → M) (key : Odds → κ) (rows : List Odds) :
    ∀ acc : List (κ × List Odds),
      groupsSum f (rows.foldl (fun a o => insertAssoc (key o) o a) acc) =
        groupsSum f acc + (rows.map f).sum := by
  induction rows with
  | nil => intro acc; simp [groupsSum]
  | cons o t ih =>
    intro acc
    rw [List.foldl_cons, ih (insertAssoc (key o) o acc), groupsSum_insertAssoc]
    simp [add_assoc]

/-- Per-row count contributions sum to the filtered row count. -/
theorem sum_contribN (b : String) (hb : b ≠ "") :
    ∀ rows : List Odds,
      (rows.map (avgContribN b)).sum =
        (rows.filter fun o => decide (o.sportsbook = b)).length := by
  intro rows
  induction rows with
  | nil => rfl
  | cons o t ih =>
    simp only [List.map_cons, List.sum_cons, List.filter_cons]
    by_cases ho : o.sportsbook = b
    · have hne : ¬o.sportsbook = "" := by rw [ho]; exact hb
      rw [avgContribN, if_neg hne, if_pos ho, decide_eq_true ho]
      simp [ih]
      omega
    · rw [decide_eq_false ho]
      have hz : avgContribN b o = 0 := by
        unfold avgContribN
        split_ifs <;> simp_all
      rw [hz]
      simp [ih]

/-- Per-row price contributions sum to the filtered price sum. -/
theorem sum_contribQ (b : String) (hb : b ≠ "") :
    ∀ rows : List Odds,
      (rows.map (avgContribQ b)).sum =
        ((rows.filter fun o => decide (o.sportsbook = b)).map priceD).sum := by
  intro rows
  induction rows with
  | nil => rfl
  | cons o t ih =>
    simp only [List.map_cons, List.sum_cons, List.filter_cons]
    by_cases ho : o.sportsbook = b
    · have hne : ¬o.sportsbook = "" := by rw [ho]; exact hb
      rw [avgContribQ, if_neg hne, if_pos ho, decide_eq_true ho]
      simp [ih]
    · rw [decide_eq_false ho]
      have hz : avgContribQ b o = 0 := by
        unfold avgContribQ
        split_ifs <;> simp_all
      rw [hz]
      simp [ih]

/-- Claim C9: for any sportsbook name, the books-summary accumulator counts
every row with that (non-empty) sportsbook and sums the price of every such
row, with no restriction on the sign of the price. -/
theorem C9_books_summary_counts_all (rows : List Odds) (b : String)
    (hb : b ≠ "") :
    avgOddsN rows b = (rows.filter fun o => decide (o.sportsbook = b)).length ∧
      avgOddsSum rows b =
        ((rows.filter fun o => decide (o.sportsbook = b)).map priceD).sum := by
  constructor
  · rw [avgOddsN, byEmo, groupByKey, groupsSum_fold, sum_contribN b hb rows]
    simp [groupsSum]
  · rw [avgOddsSum, byEmo, groupByKey, groupsSum_fold, sum_contribQ b hb rows]
    simp [groupsSum]

/-- Witness for C9 on a snapshot containing a negative price. -/
theorem C9_books_summary_counts_all_witness :
    ("B" : String) ≠ "" ∧
      avgOddsN rowsC9 "B" =
        (rowsC9.filter fun o => decide (o.sportsbook = "B")).length :=
  ⟨by decide, (C9_books_summary_counts_all rowsC9 "B" (by decide)).1⟩

/-- Witness for C7 at prices 2 and −1. -/
theorem C7_nonpositive_price_margin_zero_witness :
    priceD rowNeg ≤ 0 ∧ calcArbMargin bestC7 = 0 :=
  ⟨by norm_num [priceD, rowNeg],
    C7_nonpositive_price_margin_zero bestC7 ("B", rowNeg) (by simp [bestC7])
      (by norm_num [priceD, rowNeg])⟩
